import Mathlib

/-!
Verification of the contact-book core of `src/No.2.py`: validated fields
(`Name`, `Phone`, `Birthday`), the `Record` aggregate, the `AddressBook`
directory, and the upcoming-birthday query `get_upcoming_birthdays`.

Python's `datetime.date` (proleptic Gregorian calendar, `toordinal` with
day 1 = 0001-01-01, `weekday()` with Monday = 0) is embedded as explicit
year/month/day triples with the same ordinal arithmetic.  Python strings
are embedded as `String` / `List Char` (sequences of code points).
Exceptions (`ValueError`) are embedded as `Except Unit` results.
-/

namespace HW7

/-- Gregorian leap-year test, as Python's `calendar.isleap` /
`datetime`'s internal `_is_leap`. -/
def isLeap (y : Nat) : Bool :=
  (y % 4 == 0 && y % 100 != 0) || y % 400 == 0

/-- Length of month `m` in a year whose leap-ness is `leap`. -/
def monthLength (leap : Bool) (m : Nat) : Nat :=
  if m = 2 then (if leap then 29 else 28)
  else if m = 4 ∨ m = 6 ∨ m = 9 ∨ m = 11 then 30
  else 31

/-- Days in a month, as `datetime`'s `_days_in_month`. -/
def daysInMonth (y m : Nat) : Nat :=
  monthLength (isLeap y) m

/-- A calendar date, as Python's `datetime.date` (the `Birthday` field
stores a `datetime`; only its `.date()` part is ever used). -/
structure Date where
  year : Nat
  month : Nat
  day : Nat
deriving DecidableEq

/-- The invariant of every constructed Python `date`: fields in range.
(Python additionally caps `year ≤ 9999`; that cap is enforced at the
construction sites `parseDMY` and `pyReplaceYear` below, where it can
actually fail.) -/
def Date.Valid (d : Date) : Prop :=
  1 ≤ d.year ∧ 1 ≤ d.month ∧ d.month ≤ 12 ∧ 1 ≤ d.day ∧ d.day ≤ daysInMonth d.year d.month

instance (d : Date) : Decidable d.Valid := by unfold Date.Valid; infer_instance

/-- Days in the months strictly before month `m` of a year with the given
leap-ness (`datetime`'s `_days_before_month`). -/
def daysBeforeMonthAux (leap : Bool) : Nat → Nat
  | 0 => 0
  | m + 1 => daysBeforeMonthAux leap m + if m = 0 then 0 else monthLength leap m

/-- Days in the months of year `y` strictly before month `m`. -/
def daysBeforeMonth (y m : Nat) : Nat :=
  daysBeforeMonthAux (isLeap y) m

/-- Days in the years strictly before year `y` (`_days_before_year`). -/
def daysBeforeYear (y : Nat) : Nat :=
  365 * (y - 1) + (y - 1) / 4 - (y - 1) / 100 + (y - 1) / 400

/-- `date.toordinal()`: 0001-01-01 is day 1. -/
def toOrdinal (d : Date) : Nat :=
  daysBeforeYear d.year + daysBeforeMonth d.year d.month + d.day

/-- `date.weekday()`: Monday = 0 … Sunday = 6.  For ordinals ≥ 1 this
equals Python's `(toordinal - 1) % 7`. -/
def weekday (d : Date) : Nat :=
  (toOrdinal d + 6) % 7

/-- The successor date (`date + timedelta(days=1)`). -/
def nextDay (d : Date) : Date :=
  if d.day < daysInMonth d.year d.month then ⟨d.year, d.month, d.day + 1⟩
  else if d.month < 12 then ⟨d.year, d.month + 1, 1⟩
  else ⟨d.year + 1, 1, 1⟩

/-- `date + timedelta(days=k)` for `k ≥ 0`. -/
def addDays (d : Date) : Nat → Date
  | 0 => d
  | k + 1 => nextDay (addDays d k)

/-- Python `date` comparison `<`: lexicographic on (year, month, day). -/
def dateLt (a b : Date) : Bool :=
  decide (a.year < b.year ∨ (a.year = b.year ∧
    (a.month < b.month ∨ (a.month = b.month ∧ a.day < b.day))))

/-- `(a - b).days` for two dates: the signed ordinal difference. -/
def deltaDays (a b : Date) : Int :=
  (toOrdinal a : Int) - (toOrdinal b : Int)


/-! ### Rendering (`strftime`) -/

/-- The two low decimal digits of `n`, zero-padded (strftime `%d` / `%m`;
day and month are at most 31, so two digits always suffice). -/
def pad2 (n : Nat) : List Char :=
  [Nat.digitChar (n / 10 % 10), Nat.digitChar (n % 10)]

/-- The four low decimal digits of `n`, zero-padded (strftime `%Y` for
the years 1000–9999; below 1000 glibc strftime drops the zero padding,
so no claim below is evaluated on such years). -/
def pad4 (n : Nat) : List Char :=
  [Nat.digitChar (n / 1000 % 10), Nat.digitChar (n / 100 % 10),
   Nat.digitChar (n / 10 % 10), Nat.digitChar (n % 10)]

/-- Python `date.strftime('%d.%m.%Y')` (src 188, and `Birthday.__str__`
src 75–76). -/
def renderDMY (d : Date) : List Char :=
  pad2 d.day ++ '.' :: (pad2 d.month ++ '.' :: pad4 d.year)

/-- String form of `renderDMY`. -/
def renderDate (d : Date) : String := String.mk (renderDMY d)

/-- Python `date.strftime('%A')` in the default C locale (src 184). -/
def weekdayName : Nat → String
  | 0 => "Monday"
  | 1 => "Tuesday"
  | 2 => "Wednesday"
  | 3 => "Thursday"
  | 4 => "Friday"
  | 5 => "Saturday"
  | 6 => "Sunday"
  | _ => ""

/-! ### `datetime.strptime(s, '%d.%m.%Y')` -/

/-- Numeric value of an ASCII digit character. -/
def digitVal (c : Char) : Nat := c.toNat - 48

/-- Value of a big-endian string of decimal digits (Python `int`). -/
def digitsToNat (cs : List Char) : Nat :=
  cs.foldl (fun a c => 10 * a + digitVal c) 0

/-- Python `datetime.strptime(s, '%d.%m.%Y')` (src 62/70).  CPython
compiles the format to the anchored regular expression
`(3[01]|[12]\d|0[1-9]|[1-9])\.(1[0-2]|0[1-9]|[1-9])\.(\d\d\d\d)` and then
builds `datetime(year, month, day)`, which raises `ValueError` for a day
that does not exist in the month or a year outside `[1, 9999]`.  Since
none of the digit groups can contain a dot, the regex match is exactly:
a 1–2 digit day with value 1–31, a dot, a 1–2 digit month with value
1–12, a dot, and exactly four digits of year, consuming the whole string.
(Python's `\d` also matches non-ASCII Unicode decimal digits; this model
uses ASCII `Char.isDigit` and the claims evaluate it on ASCII strings.) -/
def parseDMY (cs : List Char) : Option Date :=
  let ds := cs.takeWhile Char.isDigit
  let rest1 := cs.dropWhile Char.isDigit
  if 1 ≤ ds.length ∧ ds.length ≤ 2 then
    match rest1 with
    | '.' :: rest2 =>
      let ms := rest2.takeWhile Char.isDigit
      let rest3 := rest2.dropWhile Char.isDigit
      if 1 ≤ ms.length ∧ ms.length ≤ 2 then
        match rest3 with
        | '.' :: ys =>
          if ys.length = 4 ∧ ys.all Char.isDigit then
            let d := digitsToNat ds
            let m := digitsToNat ms
            let y := digitsToNat ys
            if 1 ≤ d ∧ d ≤ 31 ∧ 1 ≤ m ∧ m ≤ 12 ∧ 1 ≤ y ∧ d ≤ daysInMonth y m
            then some ⟨y, m, d⟩ else none
          else none
        | _ => none
      else none
    | _ => none
  else none

/-! ### Fields -/

/-- Characters accepted by Python `str.isdigit` beyond the ASCII digits:
everything with Unicode `Numeric_Type=Digit` or `Decimal`.  This model
lists a representative fragment of that table — the superscript digits
(digits but not decimal digits) and the Arabic-Indic decimal digits; the
claims below only evaluate the non-ASCII part of the predicate on
these. -/
def pyExtraDigitChars : List Char :=
  ['⁰', '¹', '²', '³', '⁴', '⁵', '⁶', '⁷', '⁸', '⁹',
   '٠', '١', '٢', '٣', '٤', '٥', '٦', '٧', '٨', '٩']

/-- Python's per-character digit test used by `str.isdigit`. -/
def pyCharIsDigit (c : Char) : Bool := c.isDigit || c ∈ pyExtraDigitChars

/-- Python `str.isdigit`: nonempty and every character a digit. -/
def pyStrIsDigit (s : String) : Bool := !s.data.isEmpty && s.data.all pyCharIsDigit

/-- Source `Phone.is_valid` (src 42–43):
`isinstance(value, str) and value.isdigit() and len(value) == 10`. -/
def phoneIsValid (s : String) : Bool := pyStrIsDigit s && s.length == 10

/-- Source `Phone(s)`: `Field.__init__` runs the `value` setter (src
12–17), which raises `ValueError` unless `is_valid`; `Field.__str__`
returns the stored string unchanged. -/
def phoneConstruct (s : String) : Except Unit String :=
  if phoneIsValid s then .ok s else .error ()

/-- Source `Birthday.is_valid` (src 66–73): the string parses under
`%d.%m.%Y`. -/
def birthdayIsValid (s : String) : Bool := (parseDMY s.data).isSome

/-- Source `Birthday(s)` for a string argument (src 52–64): validate,
then store `datetime.strptime(s, '%d.%m.%Y')` (the same parse, so it
cannot fail after `is_valid` passes). -/
def birthdayConstruct (s : String) : Except Unit Date :=
  match parseDMY s.data with
  | some d => .ok d
  | none => .error ()

/-! ### `Record` (src 79–138) -/

/-- A record: a validated `Name` (non-empty string; not exercised by any
claim), `Phone` objects embedded by their stored string values, and an
optional `Birthday` embedded by its stored date. -/
structure Record where
  name : String
  phones : List String
  birthday : Option Date
deriving DecidableEq

/-- Source `Record.find_phone` (src 118–122): the first phone whose value
equals the argument. -/
def findPhone (r : Record) (s : String) : Option String :=
  r.phones.find? (fun p => p = s)

/-- Source `Record.add_phone` (src 85–94): validate (re-raising the
`ValueError` on failure), return `False` on a duplicate value, else
append the new phone and return `True`. -/
def addPhone (r : Record) (s : String) : Except Unit (Bool × Record) :=
  if phoneIsValid s then
    if s ∈ r.phones then .ok (false, r)
    else .ok (true, { r with phones := r.phones ++ [s] })
  else .error ()

/-- Removal of the first occurrence of a value (Python `list.remove`;
`Field.__eq__` compares stored values). -/
def removeFirst : List String → String → List String
  | [], _ => []
  | x :: xs, s => if x = s then xs else x :: removeFirst xs s

/-- Source `Record.remove_phone` (src 96–101): raise when the value is
absent, else remove the found phone. -/
def removePhone (r : Record) (s : String) : Except Unit Record :=
  match findPhone r s with
  | some _ => .ok { r with phones := removeFirst r.phones s }
  | none => .error ()

/-- Replacement of the first occurrence of `old` (in-place mutation of
the found `Phone` object's `value`, so its position is preserved). -/
def replaceFirst : List String → String → String → List String
  | [], _, _ => []
  | x :: xs, old, n => if x = old then n :: xs else x :: replaceFirst xs old n

/-- Source `Record.edit_phone` (src 103–115): raise if `old` is absent;
validate `n` (raising on failure); raise if the new value differs from
the `old` argument and is already stored; else overwrite the found phone
in place. -/
def editPhone (r : Record) (old n : String) : Except Unit Record :=
  match findPhone r old with
  | none => .error ()
  | some _ =>
    if phoneIsValid n then
      if n ≠ old ∧ n ∈ r.phones then .error ()
      else .ok { r with phones := replaceFirst r.phones old n }
    else .error ()

/-- The record state after `edit_phone`: on every error path the source
raises before mutating `self.phones`, so the record is unchanged. -/
def editPhoneState (r : Record) (old n : String) : Record :=
  match editPhone r old n with
  | .ok r' => r'
  | .error _ => r

/-- Source `Record.add_birthday` (src 124–130): validate and overwrite. -/
def addBirthday (r : Record) (s : String) : Except Unit Record :=
  match birthdayConstruct s with
  | .ok d => .ok { r with birthday := some d }
  | .error e => .error e

/-! ### `AddressBook` (src 141–208) -/

/-- An address book (`UserDict` keyed by `record.name.value`), embedded
as its list of records in dictionary insertion order; the key of each
entry is its `name` field. -/
abbrev Book := List Record

/-- Source `AddressBook.add_record` (src 142–147): overwrite in place
when the name is already a key (Python dicts keep the original position
on update), else append.  The returned flag is the printed advisory
warning that an existing contact is being updated; the `TypeError` guard
for non-`Record` arguments is subsumed by typing. -/
def addRecord (book : Book) (r : Record) : Book × Bool :=
  if book.any (fun x => x.name = r.name) then
    (book.map (fun x => if x.name = r.name then r else x), true)
  else (book ++ [r], false)

/-- Source `AddressBook.find` (src 149–150). -/
def findRecord (book : Book) (n : String) : Option Record :=
  book.find? (fun x => x.name = n)

/-! ### `get_upcoming_birthdays` (src 158–208) -/

/-- Python `date.replace(year=y)` (src 166/169): the `date` constructor
revalidates, raising `ValueError` when the day does not exist in the
target month (Feb 29 of a non-leap year) or the year is outside
`[MINYEAR, MAXYEAR] = [1, 9999]`. -/
def pyReplaceYear (d : Date) (y : Nat) : Option Date :=
  if 1 ≤ y ∧ y ≤ 9999 ∧ d.day ≤ daysInMonth y d.month then some ⟨y, d.month, d.day⟩
  else none

/-- Src 166–169: map the stored birthday to today's year, rolling forward
to next year when the mapped date is strictly before today. -/
def mappedRolled (today b : Date) : Option Date :=
  match pyReplaceYear b today.year with
  | none => none
  | some b1 => if dateLt b1 today then pyReplaceYear b (today.year + 1) else some b1

/-- Src 178–182: shift a Saturday birthday by 2 days and a Sunday one by
1 day (`weekday()`: Saturday = 5, Sunday = 6). -/
def congratsDate (b : Date) : Date :=
  if weekday b = 5 then addDays b 2
  else if weekday b = 6 then addDays b 1
  else b

/-- One dict of the `upcoming_birthdays` list (src 186–190). -/
structure Entry where
  name : String
  congratulation_date_str : String
  congratulation_weekday : String
deriving DecidableEq

/-- The loop body (src 163–190) for one record; `.ok none` means the
record is skipped (no birthday, or outside the 7-day horizon). -/
def processRecord (today : Date) (r : Record) : Except Unit (Option Entry) :=
  match r.birthday with
  | none => .ok none
  | some b =>
    match mappedRolled today b with
    | none => .error ()
    | some bthis =>
      if 0 ≤ deltaDays bthis today ∧ deltaDays bthis today < 7 then
        .ok (some ⟨r.name, renderDate (congratsDate bthis),
          weekdayName (weekday (congratsDate bthis))⟩)
      else .ok none

/-- The loop over `self.data.values()` (src 163): an exception raised for
any record aborts the whole query. -/
def collectEntries (today : Date) : Book → Except Unit (List Entry)
  | [] => .ok []
  | r :: rs =>
    match processRecord today r with
    | .error e => .error e
    | .ok none => collectEntries today rs
    | .ok (some en) =>
      match collectEntries today rs with
      | .error e => .error e
      | .ok l => .ok (en :: l)

/-- One output line (src 204–206); `none` when the weekday group is empty
(the `if day in grouped_birthdays` test).  Grouping by dict (src
193–198) keeps the entries of a weekday in their insertion order, which
is what filtering the entry list reproduces. -/
def groupLine (entries : List Entry) (day : String) : Option String :=
  let names := (entries.filter (fun e => e.congratulation_weekday = day)).map Entry.name
  if names.isEmpty then none
  else some (day ++ ": " ++ String.intercalate ", " names)

/-- Src 203: Saturday and Sunday are omitted from the output order. -/
def weekOrder : List String := ["Monday", "Tuesday", "Wednesday", "Thursday", "Friday"]

/-- Src 192–208: group the entries by congratulation weekday and emit the
nonempty groups in `weekOrder`. -/
def formatGroups (entries : List Entry) : List String :=
  weekOrder.filterMap (groupLine entries)

/-- Source `AddressBook.get_upcoming_birthdays` (src 158–208) as a
function of the directory snapshot and today's date (the source reads
`today` from the system clock via `datetime.today().date()`, and
`days_in_advance` is the literal constant 7). -/
def getUpcomingBirthdays (book : Book) (today : Date) : Except Unit (List String) :=
  match collectEntries today book with
  | .error e => .error e
  | .ok entries => .ok (formatGroups entries)

/-- Modelled from the spec: the "exact `DD.MM.YYYY` format" pattern of
§4.1/§8 — two digits, a dot, two digits, a dot, four digits. -/
def specExactDDMMYYYY (s : String) : Bool :=
  match s.data with
  | [d1, d0, c1, m1, m0, c2, y3, y2, y1, y0] =>
    [d1, d0, m1, m0, y3, y2, y1, y0].all Char.isDigit && c1 == '.' && c2 == '.'
  | _ => false

/-- Modelled from the spec: §4.3 gives the query the signature
`upcoming_birthdays(today, horizon_days=7)` with an explicit horizon
parameter, which the source does not have.  Identical to `processRecord`
except that the literal 7 becomes the parameter. -/
def processRecordH (today : Date) (horizon : Int) (r : Record) : Except Unit (Option Entry) :=
  match r.birthday with
  | none => .ok none
  | some b =>
    match mappedRolled today b with
    | none => .error ()
    | some bthis =>
      if 0 ≤ deltaDays bthis today ∧ deltaDays bthis today < horizon then
        .ok (some ⟨r.name, renderDate (congratsDate bthis),
          weekdayName (weekday (congratsDate bthis))⟩)
      else .ok none

/-- Modelled from the spec: the loop of the horizon-parameterized
query. -/
def collectEntriesH (today : Date) (horizon : Int) : Book → Except Unit (List Entry)
  | [] => .ok []
  | r :: rs =>
    match processRecordH today horizon r with
    | .error e => .error e
    | .ok none => collectEntriesH today horizon rs
    | .ok (some en) =>
      match collectEntriesH today horizon rs with
      | .error e => .error e
      | .ok l => .ok (en :: l)

/-- Modelled from the spec: `upcoming_birthdays(today, horizon_days=7)`
of §4.3/§4.4. -/
def getUpcomingBirthdaysH (book : Book) (today : Date) (horizon : Int) :
    Except Unit (List String) :=
  match collectEntriesH today horizon book with
  | .error e => .error e
  | .ok entries => .ok (formatGroups entries)

/-- The phone-list invariant of C10: pairwise-distinct values, each of
which passes `Phone.is_valid`. -/
def PhonesOK (r : Record) : Prop :=
  r.phones.Nodup ∧ ∀ p ∈ r.phones, phoneIsValid p = true

instance (r : Record) : Decidable (PhonesOK r) := by unfold PhonesOK; infer_instance

section DateLemmas

theorem one_le_monthLength (b : Bool) (m : Nat) : 1 ≤ monthLength b m := by
  unfold monthLength
  split
  · split <;> omega
  · split <;> omega

theorem monthLength_le_31 (b : Bool) (m : Nat) : monthLength b m ≤ 31 := by
  unfold monthLength
  split
  · split <;> omega
  · split <;> omega

theorem one_le_daysInMonth (y m : Nat) : 1 ≤ daysInMonth y m :=
  one_le_monthLength (isLeap y) m

theorem daysInMonth_le_31 (y m : Nat) : daysInMonth y m ≤ 31 :=
  monthLength_le_31 (isLeap y) m

theorem daysInMonth_feb (y : Nat) : 28 ≤ daysInMonth y 2 := by
  have h : daysInMonth y 2 = if isLeap y then 29 else 28 := rfl
  rw [h]
  split <;> omega

theorem daysInMonth_not_feb (y y' m : Nat) (h : m ≠ 2) :
    daysInMonth y m = daysInMonth y' m := by
  unfold daysInMonth monthLength
  rw [if_neg h, if_neg h]

theorem daysBeforeMonthAux_succ (b : Bool) (m : Nat) (h : 1 ≤ m) :
    daysBeforeMonthAux b (m + 1) = daysBeforeMonthAux b m + monthLength b m := by
  have hm : m ≠ 0 := by omega
  simp [daysBeforeMonthAux, hm]

theorem daysBeforeMonthAux_one (b : Bool) : daysBeforeMonthAux b 1 = 0 := by
  cases b <;> decide

theorem daysInYearAux (b : Bool) :
    daysBeforeMonthAux b 12 + monthLength b 12 = 365 + (if b then 1 else 0) := by
  cases b <;> decide

theorem isLeap_iff (y : Nat) :
    isLeap y = true ↔ (y % 4 = 0 ∧ y % 100 ≠ 0) ∨ y % 400 = 0 := by
  simp [isLeap]

set_option maxHeartbeats 1600000 in
theorem daysBeforeYear_succ (y : Nat) (h : 1 ≤ y) :
    daysBeforeYear (y + 1) = daysBeforeYear y + 365 + (if isLeap y then 1 else 0) := by
  unfold daysBeforeYear
  split
  · rename_i ht
    have := (isLeap_iff y).mp ht
    omega
  · rename_i hf
    have : ¬ ((y % 4 = 0 ∧ y % 100 ≠ 0) ∨ y % 400 = 0) := fun hc => hf ((isLeap_iff y).mpr hc)
    omega

theorem toOrdinal_nextDay (d : Date) (h : d.Valid) :
    toOrdinal (nextDay d) = toOrdinal d + 1 := by
  obtain ⟨hy, hm1, hm2, hd1, hd2⟩ := h
  unfold nextDay
  split
  · simp only [toOrdinal]
    omega
  · rename_i hlt
    have hde : d.day = daysInMonth d.year d.month := by omega
    simp only [daysInMonth] at hde
    split
    · rename_i hmlt
      simp only [toOrdinal, daysBeforeMonth, daysBeforeMonthAux_succ (isLeap d.year) d.month hm1]
      omega
    · rename_i hm12
      have hm : d.month = 12 := by omega
      have h12 : daysBeforeMonthAux (isLeap d.year) 12 + monthLength (isLeap d.year) 12 =
          365 + (if isLeap d.year then 1 else 0) := daysInYearAux (isLeap d.year)
      have hstep := daysBeforeYear_succ d.year hy
      simp only [toOrdinal, daysBeforeMonth, daysBeforeMonthAux_one]
      rw [hm] at hde ⊢
      omega

theorem nextDay_valid (d : Date) (h : d.Valid) : (nextDay d).Valid := by
  obtain ⟨hy, hm1, hm2, hd1, hd2⟩ := h
  have hdm2 := one_le_daysInMonth d.year (d.month + 1)
  have hdm3 := one_le_daysInMonth (d.year + 1) 1
  unfold nextDay Date.Valid
  split
  · dsimp only
    omega
  · split
    · dsimp only
      omega
    · dsimp only
      omega

theorem addDays_valid (d : Date) (h : d.Valid) (k : Nat) : (addDays d k).Valid := by
  induction k with
  | zero => exact h
  | succ k ih => exact nextDay_valid _ ih

theorem toOrdinal_addDays (d : Date) (h : d.Valid) (k : Nat) :
    toOrdinal (addDays d k) = toOrdinal d + k := by
  induction k with
  | zero => rfl
  | succ k ih =>
    have := toOrdinal_nextDay (addDays d k) (addDays_valid d h k)
    simp only [addDays, this, ih]
    omega

end DateLemmas

/-! ## Helper lemmas -/

theorem isDigit_digitChar (n : Nat) (h : n < 10) : (Nat.digitChar n).isDigit = true := by
  interval_cases n <;> decide

theorem digitVal_digitChar (n : Nat) (h : n < 10) : digitVal (Nat.digitChar n) = n := by
  interval_cases n <;> decide

theorem isDigit_dot : ('.' : Char).isDigit = false := by decide

theorem digitsToNat_two (a b : Nat) (ha : a < 10) (hb : b < 10) :
    digitsToNat [Nat.digitChar a, Nat.digitChar b] = 10 * a + b := by
  simp [digitsToNat, digitVal_digitChar a ha, digitVal_digitChar b hb]

theorem digitsToNat_four (a b c e : Nat) (ha : a < 10) (hb : b < 10) (hc : c < 10)
    (he : e < 10) :
    digitsToNat [Nat.digitChar a, Nat.digitChar b, Nat.digitChar c, Nat.digitChar e] =
      1000 * a + 100 * b + 10 * c + e := by
  simp [digitsToNat, digitVal_digitChar a ha, digitVal_digitChar b hb,
    digitVal_digitChar c hc, digitVal_digitChar e he]
  ring

/-! ## C4: Phone validation -/

/-- C4 (counterexample): the claim says every string containing a
character that is not a decimal digit fails Phone validation.  The
source uses Python `str.isdigit`, which also accepts non-decimal digit
characters: the 10-character string of superscript twos contains no
decimal digit at all, yet `Phone` construction succeeds and round-trips
it. -/
theorem phone_superscripts_accepted :
    (∀ c ∈ "²²²²²²²²²²".data, ¬ c.isDigit) ∧ "²²²²²²²²²²".length = 10 ∧
      phoneConstruct "²²²²²²²²²²" = .ok "²²²²²²²²²²" :=
  ⟨by decide, by decide, rfl⟩

/-- C4 (amended): every string of length ≠ 10 fails Phone construction;
every 10-character string of ASCII decimal digits is accepted and the
field renders back as the identical string.  (What the source accepts is
exactly length 10 and `str.isdigit`, which is broader than decimal
digits — see the counterexample.) -/
theorem phone_validation (s : String) :
    (s.length ≠ 10 → phoneConstruct s = .error ()) ∧
    (s.length = 10 → s.data.all Char.isDigit = true → phoneConstruct s = .ok s) := by
  constructor
  · intro h
    have hv : phoneIsValid s = false := by
      unfold phoneIsValid
      simp [h]
    simp [phoneConstruct, hv]
  · intro h10 hall
    have hlen : s.data.length = 10 := h10
    have hne : s.data.isEmpty = false := by
      cases hd : s.data with
      | nil => rw [hd] at hlen; simp at hlen
      | cons a l => simp
    have hv : phoneIsValid s = true := by
      unfold phoneIsValid pyStrIsDigit
      simp only [List.all_eq_true] at hall
      have : s.data.all pyCharIsDigit = true := by
        simp only [List.all_eq_true]
        intro c hc
        simp [pyCharIsDigit, hall c hc]
      simp [hne, this, h10]
    simp [phoneConstruct, hv]

/-- C4 (witness for `phone_validation`). -/
theorem phone_validation_witness :
    phoneConstruct "0123456789" = .ok "0123456789" ∧ phoneConstruct "123" = .error () :=
  ⟨(phone_validation "0123456789").2 (by decide) (by decide),
   (phone_validation "123").1 (by decide)⟩

/-! ## C5: Birthday format -/

theorem parseDMY_renderDMY (d : Date) (h : d.Valid) (hy : d.year ≤ 9999) :
    parseDMY (renderDMY d) = some d := by
  obtain ⟨hy1, hm1, hm2, hd1, hd2⟩ := h
  have hd31 : d.day ≤ 31 := le_trans hd2 (daysInMonth_le_31 d.year d.month)
  have e1 := isDigit_digitChar (d.day / 10 % 10) (Nat.mod_lt _ (by omega))
  have e0 := isDigit_digitChar (d.day % 10) (Nat.mod_lt _ (by omega))
  have f1 := isDigit_digitChar (d.month / 10 % 10) (Nat.mod_lt _ (by omega))
  have f0 := isDigit_digitChar (d.month % 10) (Nat.mod_lt _ (by omega))
  have g3 := isDigit_digitChar (d.year / 1000 % 10) (Nat.mod_lt _ (by omega))
  have g2 := isDigit_digitChar (d.year / 100 % 10) (Nat.mod_lt _ (by omega))
  have g1 := isDigit_digitChar (d.year / 10 % 10) (Nat.mod_lt _ (by omega))
  have g0 := isDigit_digitChar (d.year % 10) (Nat.mod_lt _ (by omega))
  simp only [renderDMY, pad2, pad4, List.cons_append, List.nil_append]
  unfold parseDMY
  simp only [List.takeWhile_cons, List.dropWhile_cons, e1, e0, f1, f0, g3, g2, g1, g0,
    isDigit_dot, if_true, if_false, ite_true, ite_false, Bool.false_eq_true]
  simp only [List.takeWhile_nil, List.dropWhile_nil, List.length_cons, List.length_nil,
    List.all_cons, List.all_nil, e1, e0, f1, f0, g3, g2, g1, g0, Bool.and_true,
    Bool.true_and]
  norm_num
  rw [digitsToNat_two _ _ (Nat.mod_lt _ (by omega)) (Nat.mod_lt _ (by omega)),
    digitsToNat_two _ _ (Nat.mod_lt _ (by omega)) (Nat.mod_lt _ (by omega)),
    digitsToNat_four _ _ _ _ (Nat.mod_lt _ (by omega)) (Nat.mod_lt _ (by omega))
      (Nat.mod_lt _ (by omega)) (Nat.mod_lt _ (by omega))]
  have hD : 10 * (d.day / 10 % 10) + d.day % 10 = d.day := by omega
  have hM : 10 * (d.month / 10 % 10) + d.month % 10 = d.month := by omega
  have hY : 1000 * (d.year / 1000 % 10) + 100 * (d.year / 100 % 10) + 10 * (d.year / 10 % 10)
      + d.year % 10 = d.year := by omega
  rw [hD, hM, hY]
  refine ⟨⟨hd1, hd31, hm1, hm2, hy1, hd2⟩, ?_⟩
  cases d
  rfl

/-- C5 (counterexample): the claim says every string not matching the
exact `DD.MM.YYYY` pattern fails Birthday construction.  CPython's
`strptime` also accepts one-digit day and month fields: `"1.1.2024"`
does not match the pattern, yet construction succeeds — and the stored
date renders back zero-padded, so the non-exact input does not
round-trip either. -/
theorem birthday_unpadded_accepted :
    specExactDDMMYYYY "1.1.2024" = false ∧
      birthdayConstruct "1.1.2024" = .ok ⟨2024, 1, 1⟩ ∧
      renderDate ⟨2024, 1, 1⟩ = "01.01.2024" :=
  ⟨rfl, rfl, rfl⟩

/-- C5 (amended): every valid calendar date with a four-or-more-digit
year renders in the exact `DD.MM.YYYY` pattern, and Birthday
construction on that string succeeds and stores back the identical date
(so exact-format strings of such dates round-trip; below year 1000 the
rendering is platform-dependent and left unstated).  Strings that
encode an invalid calendar date still fail, e.g. `31.02.2024`; but
construction also succeeds on some non-exact strings, see the
counterexample. -/
theorem birthday_exact_roundtrip (d : Date) (h : d.Valid) (h1000 : 1000 ≤ d.year)
    (h9999 : d.year ≤ 9999) :
    specExactDDMMYYYY (renderDate d) = true ∧
      birthdayConstruct (renderDate d) = .ok d ∧
      birthdayConstruct "31.02.2024" = .error () := by
  refine ⟨?_, ?_, rfl⟩
  · obtain ⟨hy1, hm1, hm2, hd1, hd2⟩ := h
    have hd31 : d.day ≤ 31 := le_trans hd2 (daysInMonth_le_31 d.year d.month)
    have e1 := isDigit_digitChar (d.day / 10 % 10) (Nat.mod_lt _ (by omega))
    have e0 := isDigit_digitChar (d.day % 10) (Nat.mod_lt _ (by omega))
    have f1 := isDigit_digitChar (d.month / 10 % 10) (Nat.mod_lt _ (by omega))
    have f0 := isDigit_digitChar (d.month % 10) (Nat.mod_lt _ (by omega))
    have g3 := isDigit_digitChar (d.year / 1000 % 10) (Nat.mod_lt _ (by omega))
    have g2 := isDigit_digitChar (d.year / 100 % 10) (Nat.mod_lt _ (by omega))
    have g1 := isDigit_digitChar (d.year / 10 % 10) (Nat.mod_lt _ (by omega))
    have g0 := isDigit_digitChar (d.year % 10) (Nat.mod_lt _ (by omega))
    simp [specExactDDMMYYYY, renderDate, renderDMY, pad2, pad4, e1, e0, f1, f0,
      g3, g2, g1, g0]
  · unfold birthdayConstruct
    rw [show (renderDate d).data = renderDMY d from rfl,
      parseDMY_renderDMY d ⟨h.1, h.2.1, h.2.2.1, h.2.2.2.1, h.2.2.2.2⟩ h9999]

/-- C5 (witness for `birthday_exact_roundtrip`). -/
theorem birthday_exact_roundtrip_witness :
    specExactDDMMYYYY (renderDate ⟨2024, 2, 29⟩) = true ∧
      birthdayConstruct (renderDate ⟨2024, 2, 29⟩) = .ok ⟨2024, 2, 29⟩ ∧
      birthdayConstruct "31.02.2024" = .error () :=
  birthday_exact_roundtrip ⟨2024, 2, 29⟩ (by decide) (by decide) (by decide)

/-! ## C6: add_phone semantics -/

/-- C6: for a valid phone value not yet stored, `add_phone` returns
`True` and appends it, so the list grows by one; calling it again with
the same value returns `False` and leaves the record unchanged; an
invalid phone string instead raises, so validation failure and
duplicates are distinguishable outcomes. -/
theorem add_phone_semantics (r : Record) (s t : String)
    (hs : phoneIsValid s = true) (hnew : s ∉ r.phones)
    (ht : phoneIsValid t = false) :
    addPhone r s = .ok (true, { r with phones := r.phones ++ [s] }) ∧
    (r.phones ++ [s]).length = r.phones.length + 1 ∧
    addPhone { r with phones := r.phones ++ [s] } s =
      .ok (false, { r with phones := r.phones ++ [s] }) ∧
    addPhone r t = .error () := by
  refine ⟨?_, by simp, ?_, ?_⟩
  · simp [addPhone, hs, hnew]
  · simp [addPhone, hs]
  · simp [addPhone, ht]

/-- C6 (witness for `add_phone_semantics`). -/
theorem add_phone_semantics_witness :
    addPhone ⟨"Alice", [], none⟩ "0123456789" =
      .ok (true, ⟨"Alice", ["0123456789"], none⟩) ∧
    (([] : List String) ++ ["0123456789"]).length = ([] : List String).length + 1 ∧
    addPhone ⟨"Alice", ["0123456789"], none⟩ "0123456789" =
      .ok (false, ⟨"Alice", ["0123456789"], none⟩) ∧
    addPhone ⟨"Alice", [], none⟩ "abc" = .error () :=
  add_phone_semantics ⟨"Alice", [], none⟩ "0123456789" "abc" (by decide) (by decide) (by decide)

/-! ## C7: edit_phone on an absent old value -/

/-- C7: `edit_phone` with an old value that matches no stored phone
raises (NotFound) and the record state after the failed call is
unchanged — same length, same values, same order. -/
theorem edit_phone_notfound (r : Record) (old n : String)
    (h : findPhone r old = none) :
    editPhone r old n = .error () ∧ editPhoneState r old n = r := by
  have he : editPhone r old n = .error () := by
    unfold editPhone
    rw [h]
  refine ⟨he, ?_⟩
  unfold editPhoneState
  rw [he]

/-- C7 (witness for `edit_phone_notfound`). -/
theorem edit_phone_notfound_witness :
    editPhone ⟨"A", ["0123456789"], none⟩ "9999999999" "1111111111" = .error () ∧
    editPhoneState ⟨"A", ["0123456789"], none⟩ "9999999999" "1111111111" =
      ⟨"A", ["0123456789"], none⟩ :=
  edit_phone_notfound ⟨"A", ["0123456789"], none⟩ "9999999999" "1111111111" (by decide)

/-! ## C8: add_record overwrite -/

theorem findRecord_map_replace (book : Book) (r : Record)
    (h : book.any (fun x => x.name = r.name) = true) :
    findRecord (book.map (fun x => if x.name = r.name then r else x)) r.name = some r := by
  induction book with
  | nil => simp at h
  | cons x xs ih =>
    by_cases hx : x.name = r.name
    · simp [findRecord, List.find?, hx]
    · have h' : xs.any (fun x => x.name = r.name) = true := by
        simp only [List.any_cons, Bool.or_eq_true, decide_eq_true_eq] at h
        rcases h with h | h
        · exact absurd h hx
        · simpa using h
      have := ih h'
      simp only [findRecord] at this
      simp [findRecord, List.find?, hx, this]

/-- C8: adding a record whose name is already a key of the book does not
raise: it returns the advisory overwrite flag (the printed warning) and
replaces the stored record, so a subsequent `find` on that name returns
the new record, not the old one. -/
theorem add_record_overwrite (book : Book) (r : Record)
    (h : book.any (fun x => x.name = r.name) = true) :
    (addRecord book r).2 = true ∧
    findRecord (addRecord book r).1 r.name = some r := by
  unfold addRecord
  rw [if_pos h]
  exact ⟨rfl, findRecord_map_replace book r h⟩

/-- C8 (witness for `add_record_overwrite`). -/
theorem add_record_overwrite_witness :
    (addRecord [⟨"A", [], none⟩] ⟨"A", ["0123456789"], none⟩).2 = true ∧
    findRecord (addRecord [⟨"A", [], none⟩] ⟨"A", ["0123456789"], none⟩).1 "A" =
      some ⟨"A", ["0123456789"], none⟩ :=
  add_record_overwrite [⟨"A", [], none⟩] ⟨"A", ["0123456789"], none⟩ (by decide)

/-! ## C10: the phone-list invariant -/

theorem removeFirst_sublist (l : List String) (s : String) :
    (removeFirst l s).Sublist l := by
  induction l with
  | nil => simp [removeFirst]
  | cons x xs ih =>
    unfold removeFirst
    split
    · exact List.sublist_cons_self x xs
    · exact List.Sublist.cons₂ x ih

theorem mem_replaceFirst (l : List String) (old n a : String)
    (h : a ∈ replaceFirst l old n) : a ∈ l ∨ a = n := by
  induction l with
  | nil => simp [replaceFirst] at h
  | cons x xs ih =>
    unfold replaceFirst at h
    split at h
    · rcases List.mem_cons.mp h with rfl | h'
      · right; rfl
      · left; exact List.mem_cons_of_mem x h'
    · rcases List.mem_cons.mp h with rfl | h'
      · left; exact List.mem_cons_self a xs
      · rcases ih h' with h'' | h''
        · left; exact List.mem_cons_of_mem x h''
        · right; exact h''

theorem nodup_replaceFirst (l : List String) (old n : String) (hl : l.Nodup)
    (hn : n ∉ l) : (replaceFirst l old n).Nodup := by
  induction l with
  | nil => simp [replaceFirst]
  | cons x xs ih =>
    rw [List.nodup_cons] at hl
    have hnxs : n ∉ xs := fun hm => hn (List.mem_cons_of_mem x hm)
    unfold replaceFirst
    split
    · rw [List.nodup_cons]
      exact ⟨hnxs, hl.2⟩
    · rw [List.nodup_cons]
      refine ⟨fun hmem => ?_, ih hl.2 hnxs⟩
      rcases mem_replaceFirst xs old n x hmem with h' | h'
      · exact hl.1 h'
      · exact hn (h' ▸ List.mem_cons_self x xs)

theorem replaceFirst_self (l : List String) (s : String) :
    replaceFirst l s s = l := by
  induction l with
  | nil => rfl
  | cons x xs ih =>
    unfold replaceFirst
    split
    · rename_i hx
      rw [hx]
    · rw [ih]

/-- C10: a record whose phone list holds pairwise-distinct values, each
passing `Phone.is_valid`, keeps that invariant across every public phone
operation — `add_phone`, `remove_phone` and `edit_phone` (each on its
success path; every error path raises before mutating the list). -/
theorem record_phones_invariant (r r' : Record) (s n : String) (b : Bool)
    (hok : PhonesOK r) :
    (addPhone r s = .ok (b, r') → PhonesOK r') ∧
    (removePhone r s = .ok r' → PhonesOK r') ∧
    (editPhone r s n = .ok r' → PhonesOK r') := by
  obtain ⟨hnd, hval⟩ := hok
  refine ⟨?_, ?_, ?_⟩
  · intro h
    unfold addPhone at h
    split at h
    · rename_i hs
      split at h
      · simp only [Except.ok.injEq, Prod.mk.injEq] at h
        obtain ⟨hb, hr⟩ := h
        subst hr
        exact ⟨hnd, hval⟩
      · rename_i hmem
        simp only [Except.ok.injEq, Prod.mk.injEq] at h
        obtain ⟨hb, hr⟩ := h
        subst hr
        refine ⟨?_, ?_⟩
        · exact hnd.append (List.nodup_singleton s)
            (fun a ha hb' => hmem (by rcases List.mem_singleton.mp hb' with rfl; exact ha))
        · intro p hp
          rcases List.mem_append.mp hp with hp' | hp'
          · exact hval p hp'
          · rcases List.mem_singleton.mp hp' with rfl
            exact hs
    · exact Except.noConfusion h
  · intro h
    unfold removePhone at h
    cases hf : findPhone r s with
    | none => rw [hf] at h; exact Except.noConfusion h
    | some p =>
      rw [hf] at h
      simp only [Except.ok.injEq] at h
      subst h
      refine ⟨List.Nodup.sublist (removeFirst_sublist r.phones s) hnd, ?_⟩
      intro q hq
      exact hval q ((removeFirst_sublist r.phones s).subset hq)
  · intro h
    unfold editPhone at h
    cases hf : findPhone r s with
    | none => rw [hf] at h; exact Except.noConfusion h
    | some p =>
      rw [hf] at h
      dsimp only at h
      split at h
      · rename_i hv
        split at h
        · exact Except.noConfusion h
        · rename_i hdup
          simp only [Except.ok.injEq] at h
          subst h
          by_cases hns : n = s
          · subst hns
            refine ⟨?_, ?_⟩
            · rw [replaceFirst_self]
              exact hnd
            · rw [replaceFirst_self]
              exact hval
          · have hnotmem : n ∉ r.phones := fun hmem => hdup ⟨hns, hmem⟩
            refine ⟨nodup_replaceFirst r.phones s n hnd hnotmem, ?_⟩
            intro q hq
            rcases mem_replaceFirst r.phones s n q hq with h' | h'
            · exact hval q h'
            · rcases h' with rfl
              exact hv
      · exact Except.noConfusion h

/-- C10 (witness for `record_phones_invariant`, through the `add_phone`
branch). -/
theorem record_phones_invariant_witness :
    PhonesOK ⟨"A", ["0123456789", "1111111111"], none⟩ :=
  (record_phones_invariant ⟨"A", ["0123456789"], none⟩
    ⟨"A", ["0123456789", "1111111111"], none⟩ "1111111111" "x" true (by decide)).1 rfl

/-! ## Query lemmas -/

theorem pyReplaceYear_valid (b : Date) (y : Nat) (b' : Date) (hb : b.Valid)
    (h : pyReplaceYear b y = some b') : b'.Valid := by
  unfold pyReplaceYear at h
  split at h
  · rename_i hc
    simp only [Option.some.injEq] at h
    subst h
    exact ⟨hc.1, hb.2.1, hb.2.2.1, hb.2.2.2.1, hc.2.2⟩
  · exact Option.noConfusion h

theorem mappedRolled_valid (today b bthis : Date) (hb : b.Valid)
    (h : mappedRolled today b = some bthis) : bthis.Valid := by
  unfold mappedRolled at h
  cases h1 : pyReplaceYear b today.year with
  | none => rw [h1] at h; exact Option.noConfusion h
  | some b1 =>
    rw [h1] at h
    dsimp only at h
    split at h
    · exact pyReplaceYear_valid b (today.year + 1) bthis hb h
    · simp only [Option.some.injEq] at h
      rw [← h]
      exact pyReplaceYear_valid b today.year b1 hb h1

theorem processRecord_ok_some (today : Date) (r : Record) (e : Entry)
    (h : processRecord today r = .ok (some e)) :
    ∃ b bthis, r.birthday = some b ∧ mappedRolled today b = some bthis ∧
      0 ≤ deltaDays bthis today ∧ deltaDays bthis today < 7 ∧
      e = ⟨r.name, renderDate (congratsDate bthis),
        weekdayName (weekday (congratsDate bthis))⟩ := by
  unfold processRecord at h
  cases hb : r.birthday with
  | none => rw [hb] at h; simp at h
  | some b =>
    rw [hb] at h
    dsimp only at h
    cases hm : mappedRolled today b with
    | none => rw [hm] at h; exact Except.noConfusion h
    | some bthis =>
      rw [hm] at h
      dsimp only at h
      split at h
      · rename_i hcond
        simp only [Except.ok.injEq, Option.some.injEq] at h
        exact ⟨b, bthis, rfl, hm, hcond.1, hcond.2, h.symm⟩
      · simp at h

theorem processRecord_some_of (today : Date) (r : Record) (b bthis : Date)
    (hb : r.birthday = some b) (hm : mappedRolled today b = some bthis)
    (h0 : 0 ≤ deltaDays bthis today) (h7 : deltaDays bthis today < 7) :
    processRecord today r = .ok (some ⟨r.name, renderDate (congratsDate bthis),
      weekdayName (weekday (congratsDate bthis))⟩) := by
  unfold processRecord
  rw [hb]
  dsimp only
  rw [hm]
  dsimp only
  rw [if_pos ⟨h0, h7⟩]

theorem collectEntries_ok (today : Date) (book : Book) (entries : List Entry)
    (h : collectEntries today book = .ok entries) :
    entries = book.filterMap (fun r =>
      match processRecord today r with
      | .ok o => o
      | .error _ => none) ∧
    ∀ r ∈ book, ∃ o, processRecord today r = .ok o := by
  induction book generalizing entries with
  | nil =>
    unfold collectEntries at h
    simp only [Except.ok.injEq] at h
    subst h
    exact ⟨rfl, by simp⟩
  | cons r rs ih =>
    unfold collectEntries at h
    cases hp : processRecord today r with
    | error e => rw [hp] at h; exact Except.noConfusion h
    | ok o =>
      rw [hp] at h
      cases o with
      | none =>
        dsimp only at h
        obtain ⟨he, hall⟩ := ih entries h
        refine ⟨by simp [List.filterMap_cons, hp, he], ?_⟩
        intro x hx
        rcases List.mem_cons.mp hx with rfl | hx'
        · exact ⟨none, hp⟩
        · exact hall x hx'
      | some en =>
        dsimp only at h
        cases hc : collectEntries today rs with
        | error e => rw [hc] at h; exact Except.noConfusion h
        | ok l =>
          rw [hc] at h
          dsimp only at h
          simp only [Except.ok.injEq] at h
          subst h
          obtain ⟨he, hall⟩ := ih l hc
          refine ⟨by simp [List.filterMap_cons, hp, he], ?_⟩
          intro x hx
          rcases List.mem_cons.mp hx with rfl | hx'
          · exact ⟨some en, hp⟩
          · exact hall x hx'

/-! ## C3: purity and determinism -/

theorem collectEntries_eq_H (today : Date) (book : Book) :
    collectEntries today book = collectEntriesH today 7 book := by
  induction book with
  | nil => rfl
  | cons r rs ih =>
    unfold collectEntries collectEntriesH
    rw [show processRecordH today 7 r = processRecord today r from rfl, ih]

/-- C3: the upcoming-birthdays query is a pure function of the directory
snapshot and today's date: it coincides with the spec's
horizon-parameterized query at the default horizon 7, and two
invocations on equal snapshots with equal todays return equal ordered
outputs.  (The source reads `today` from the system clock — modelled
here as the explicit `today` argument — and fixes the horizon as the
literal constant 7 inside the method body.) -/
theorem upcoming_pure_deterministic (b1 b2 : Book) (t1 t2 : Date)
    (hb : b1 = b2) (ht : t1 = t2) :
    getUpcomingBirthdays b1 t1 = getUpcomingBirthdaysH b1 t1 7 ∧
    getUpcomingBirthdays b1 t1 = getUpcomingBirthdays b2 t2 := by
  subst hb
  subst ht
  refine ⟨?_, rfl⟩
  unfold getUpcomingBirthdays getUpcomingBirthdaysH
  rw [collectEntries_eq_H]

/-- C3 (witness for `upcoming_pure_deterministic`). -/
theorem upcoming_pure_deterministic_witness :
    getUpcomingBirthdays [⟨"Alice", [], some ⟨2000, 1, 13⟩⟩] ⟨2024, 1, 10⟩ =
      getUpcomingBirthdaysH [⟨"Alice", [], some ⟨2000, 1, 13⟩⟩] ⟨2024, 1, 10⟩ 7 ∧
    getUpcomingBirthdays [⟨"Alice", [], some ⟨2000, 1, 13⟩⟩] ⟨2024, 1, 10⟩ =
      getUpcomingBirthdays [⟨"Alice", [], some ⟨2000, 1, 13⟩⟩] ⟨2024, 1, 10⟩ :=
  upcoming_pure_deterministic _ _ _ _ rfl rfl

/-! ## C2: the weekend shift -/

theorem weekday_congratsDate (b : Date) (h : b.Valid) :
    weekday (congratsDate b) < 5 := by
  unfold congratsDate
  split
  · rename_i h5
    have ho := toOrdinal_addDays b h 2
    unfold weekday at h5 ⊢
    rw [ho]
    omega
  · split
    · rename_i h5 h6
      have ho := toOrdinal_addDays b h 1
      unfold weekday at h6 ⊢
      rw [ho]
      omega
    · rename_i h5 h6
      unfold weekday at h5 h6 ⊢
      omega

theorem weekdayName_not_weekend (w : Nat) (h : w < 5) :
    weekdayName w ≠ "Saturday" ∧ weekdayName w ≠ "Sunday" := by
  interval_cases w <;> exact ⟨by decide, by decide⟩

/-- C2: every entry produced by the query records as congratulation date
its birthday-this-year shifted forward by 2 days when that date falls on
Saturday, by 1 day when it falls on Sunday, and unshifted on
Monday–Friday; consequently no emitted entry's congratulation weekday is
Saturday or Sunday. -/
theorem upcoming_weekend_shift (book : Book) (today : Date) (entries : List Entry)
    (hbv : ∀ r ∈ book, ∀ d, r.birthday = some d → d.Valid)
    (h : collectEntries today book = .ok entries) :
    ∀ e ∈ entries, ∃ bthis : Date, bthis.Valid ∧
      e.congratulation_date_str = renderDate (congratsDate bthis) ∧
      e.congratulation_weekday = weekdayName (weekday (congratsDate bthis)) ∧
      (weekday bthis = 5 → congratsDate bthis = addDays bthis 2) ∧
      (weekday bthis = 6 → congratsDate bthis = addDays bthis 1) ∧
      (weekday bthis < 5 → congratsDate bthis = bthis) ∧
      e.congratulation_weekday ≠ "Saturday" ∧ e.congratulation_weekday ≠ "Sunday" := by
  intro e he
  obtain ⟨hfm, _⟩ := collectEntries_ok today book entries h
  subst hfm
  obtain ⟨r, hr, hfr⟩ := List.mem_filterMap.mp he
  cases hp : processRecord today r with
  | error err => rw [hp] at hfr; simp at hfr
  | ok o =>
    rw [hp] at hfr
    dsimp only at hfr
    subst hfr
    obtain ⟨b, bthis, hbd, hm, h0, h7, hee⟩ := processRecord_ok_some today r e hp
    have hbvv : b.Valid := hbv r hr b hbd
    have hbtv : bthis.Valid := mappedRolled_valid today b bthis hbvv hm
    subst hee
    refine ⟨bthis, hbtv, rfl, rfl, ?_, ?_, ?_,
      (weekdayName_not_weekend _ (weekday_congratsDate bthis hbtv)).1,
      (weekdayName_not_weekend _ (weekday_congratsDate bthis hbtv)).2⟩
    · intro h5
      unfold congratsDate
      rw [if_pos h5]
    · intro h6
      unfold congratsDate
      rw [if_neg (by omega), if_pos h6]
    · intro hlt
      unfold congratsDate
      rw [if_neg (by omega), if_neg (by omega)]

/-- C2 (witness for `upcoming_weekend_shift`): a Saturday birthday
shifted to Monday. -/
theorem upcoming_weekend_shift_witness :
    ∃ bthis : Date, bthis.Valid ∧
      ("15.01.2024" : String) = renderDate (congratsDate bthis) ∧
      ("Monday" : String) = weekdayName (weekday (congratsDate bthis)) ∧
      (weekday bthis = 5 → congratsDate bthis = addDays bthis 2) ∧
      (weekday bthis = 6 → congratsDate bthis = addDays bthis 1) ∧
      (weekday bthis < 5 → congratsDate bthis = bthis) ∧
      ("Monday" : String) ≠ "Saturday" ∧ ("Monday" : String) ≠ "Sunday" :=
  upcoming_weekend_shift [⟨"Alice", [], some ⟨2000, 1, 13⟩⟩] ⟨2024, 1, 10⟩
    [⟨"Alice", "15.01.2024", "Monday"⟩]
    (by
      intro r hr d hd
      rcases List.mem_singleton.mp hr with rfl
      cases Option.some.inj hd
      decide)
    rfl ⟨"Alice", "15.01.2024", "Monday"⟩ (List.mem_singleton.mpr rfl)

/-! ## C1: the inclusion condition -/

/-- C1: when the book's names are pairwise distinct (they are dictionary
keys) and the query returns normally, a contact's name appears among the
produced entries iff the contact has a birthday which — mapped to
today's year and rolled forward to next year when strictly before
today — lies within `0 ≤ delta < 7` whole days of today; in particular a
contact without a birthday never appears. -/
theorem upcoming_inclusion_iff (book : Book) (today : Date) (entries : List Entry)
    (hnd : (book.map Record.name).Nodup)
    (h : collectEntries today book = .ok entries) :
    ∀ r ∈ book, ((∃ e ∈ entries, e.name = r.name) ↔
      ∃ b bthis, r.birthday = some b ∧ mappedRolled today b = some bthis ∧
        0 ≤ deltaDays bthis today ∧ deltaDays bthis today < 7) := by
  intro r hr
  obtain ⟨hfm, hall⟩ := collectEntries_ok today book entries h
  constructor
  · rintro ⟨e, he, hname⟩
    rw [hfm] at he
    obtain ⟨r', hr', hfr⟩ := List.mem_filterMap.mp he
    cases hp : processRecord today r' with
    | error err => rw [hp] at hfr; simp at hfr
    | ok o =>
      rw [hp] at hfr
      dsimp only at hfr
      subst hfr
      obtain ⟨b, bthis, hbd, hm, h0, h7, hee⟩ := processRecord_ok_some today r' e hp
      have hen : e.name = r'.name := by rw [hee]
      have hrr : r' = r := List.inj_on_of_nodup_map hnd hr' hr (by rw [← hen, hname])
      subst hrr
      exact ⟨b, bthis, hbd, hm, h0, h7⟩
  · rintro ⟨b, bthis, hbd, hm, h0, h7⟩
    have hp := processRecord_some_of today r b bthis hbd hm h0 h7
    refine ⟨⟨r.name, renderDate (congratsDate bthis),
      weekdayName (weekday (congratsDate bthis))⟩, ?_, rfl⟩
    rw [hfm]
    exact List.mem_filterMap.mpr ⟨r, hr, by rw [hp]⟩

/-- C1 (witness for `upcoming_inclusion_iff`). -/
theorem upcoming_inclusion_iff_witness :
    (∃ e ∈ [(⟨"Alice", "15.01.2024", "Monday"⟩ : Entry)], e.name = "Alice") ↔
      ∃ b bthis, (some ⟨2000, 1, 13⟩ : Option Date) = some b ∧
        mappedRolled ⟨2024, 1, 10⟩ b = some bthis ∧
        0 ≤ deltaDays bthis ⟨2024, 1, 10⟩ ∧ deltaDays bthis ⟨2024, 1, 10⟩ < 7 :=
  upcoming_inclusion_iff [⟨"Alice", [], some ⟨2000, 1, 13⟩⟩] ⟨2024, 1, 10⟩
    [⟨"Alice", "15.01.2024", "Monday"⟩] (by decide) rfl
    ⟨"Alice", [], some ⟨2000, 1, 13⟩⟩ (by decide)

/-! ## C9: totality of the query -/

/-- C9 (counterexample): a directory state reachable through the public
operations — `"29.02.2024"` passes Birthday validation — on which the
query raises for today = 01.01.2025: mapping Feb 29 to the non-leap
year 2025 makes `date.replace` raise `ValueError`. -/
theorem upcoming_feb29_raises :
    birthdayIsValid "29.02.2024" = true ∧
    getUpcomingBirthdays [⟨"Alice", [], some ⟨2024, 2, 29⟩⟩] ⟨2025, 1, 1⟩ = .error () :=
  ⟨rfl, rfl⟩

theorem daysInMonth_feb_le (y : Nat) : daysInMonth y 2 ≤ 29 := by
  have h : daysInMonth y 2 = if isLeap y then 29 else 28 := rfl
  rw [h]
  split <;> omega

theorem pyReplaceYear_total (b : Date) (y : Nat) (hb : b.Valid)
    (hnf : ¬(b.month = 2 ∧ b.day = 29)) (hy1 : 1 ≤ y) (hy2 : y ≤ 9999) :
    ∃ b', pyReplaceYear b y = some b' := by
  have hday : b.day ≤ daysInMonth y b.month := by
    by_cases hm : b.month = 2
    · have h29 : b.day ≤ 29 := by
        have hd := hb.2.2.2.2
        rw [hm] at hd
        exact le_trans hd (daysInMonth_feb_le b.year)
      have hne : b.day ≠ 29 := fun hd => hnf ⟨hm, hd⟩
      have h28 := daysInMonth_feb y
      rw [hm]
      omega
    · rw [daysInMonth_not_feb y b.year b.month hm]
      exact hb.2.2.2.2
  unfold pyReplaceYear
  rw [if_pos ⟨hy1, hy2, hday⟩]
  exact ⟨_, rfl⟩

theorem mappedRolled_total (today b : Date) (hb : b.Valid)
    (hnf : ¬(b.month = 2 ∧ b.day = 29)) (ht1 : 1 ≤ today.year) (ht2 : today.year ≤ 9998) :
    ∃ bthis, mappedRolled today b = some bthis := by
  obtain ⟨b1, h1⟩ := pyReplaceYear_total b today.year hb hnf ht1 (by omega)
  obtain ⟨b2, h2⟩ := pyReplaceYear_total b (today.year + 1) hb hnf (by omega) (by omega)
  unfold mappedRolled
  rw [h1]
  dsimp only
  split
  · exact ⟨b2, h2⟩
  · exact ⟨b1, rfl⟩

theorem processRecord_total (today : Date) (r : Record)
    (hb : ∀ d, r.birthday = some d → d.Valid ∧ ¬(d.month = 2 ∧ d.day = 29))
    (ht1 : 1 ≤ today.year) (ht2 : today.year ≤ 9998) :
    ∃ o, processRecord today r = .ok o := by
  unfold processRecord
  cases hbd : r.birthday with
  | none => exact ⟨none, rfl⟩
  | some d =>
    obtain ⟨hv, hnf⟩ := hb d hbd
    obtain ⟨bthis, hm⟩ := mappedRolled_total today d hv hnf ht1 ht2
    dsimp only
    rw [hm]
    dsimp only
    split
    · exact ⟨_, rfl⟩
    · exact ⟨none, rfl⟩

/-- C9 (amended): the query returns normally — for every today whose
year is at most 9998 — on every directory state whose stored birthdays
are valid dates other than February 29; with a Feb-29 birthday the query
instead raises whenever the target year of the mapping (today's year, or
the next when rolled forward) is not a leap year, and it can also raise
when today's year is 9999 via the roll into year 10000 — see the
counterexample for the Feb-29 case the claim explicitly includes. -/
theorem upcoming_total (book : Book) (today : Date)
    (hb : ∀ r ∈ book, ∀ d, r.birthday = some d → d.Valid ∧ ¬(d.month = 2 ∧ d.day = 29))
    (ht1 : 1 ≤ today.year) (ht2 : today.year ≤ 9998) :
    ∃ l, getUpcomingBirthdays book today = .ok l := by
  suffices hs : ∃ es, collectEntries today book = .ok es by
    obtain ⟨es, hes⟩ := hs
    refine ⟨formatGroups es, ?_⟩
    unfold getUpcomingBirthdays
    rw [hes]
  revert hb
  induction book with
  | nil => exact fun _ => ⟨[], rfl⟩
  | cons r rs ih =>
    intro hb
    obtain ⟨es, hes⟩ := ih (fun x hx d hd => hb x (List.mem_cons_of_mem r hx) d hd)
    obtain ⟨o, ho⟩ := processRecord_total today r (hb r (List.mem_cons_self r rs)) ht1 ht2
    cases o with
    | none =>
      unfold collectEntries
      rw [ho]
      dsimp only
      exact ⟨es, hes⟩
    | some en =>
      unfold collectEntries
      rw [ho]
      dsimp only
      rw [hes]
      exact ⟨en :: es, rfl⟩

/-- C9 (witness for `upcoming_total`). -/
theorem upcoming_total_witness :
    ∃ l, getUpcomingBirthdays [⟨"Alice", [], some ⟨2000, 1, 13⟩⟩] ⟨2024, 1, 10⟩ = .ok l :=
  upcoming_total [⟨"Alice", [], some ⟨2000, 1, 13⟩⟩] ⟨2024, 1, 10⟩
    (by
      intro r hr d hd
      rcases List.mem_singleton.mp hr with rfl
      cases Option.some.inj hd
      exact ⟨by decide, by decide⟩)
    (by decide) (by decide)

end HW7
